import Mathlib

/-!
# Verification of the stencil render pipeline

A shallow embedding of the core of the `stencil` code generator:

* the shared-data store for module hooks (`internal/codegen/tpl_stencil.go`:
  `GetModuleHook`, `AddToModuleHook`) together with the between-pass sort of
  hook values by structural hash (`moduleHook.Sort`);
* the two-pass renderer (`Stencil.Render`), lockfile generation
  (`Stencil.GenerateLockfile`) and directory-replacement rendering
  (`Stencil.renderDirReplacement`);
* the module resolver's version selection and the schema-error path
  builder, both reconstructed from the specification and the repository's
  tests because their implementations are not part of the provided sources.

Go `string` values are modelled as Lean `String`, Go slices as `List`,
Go's `map[string][]interface{}` as an association list keyed by the
`"<module>/<name>"` string, and hook values by an arbitrary type `V`.
The 64-bit structural hash computed by `hashstructure.Hash` is passed
around as an explicit function `hash : V → Nat`, mirroring the fact that
the renderer treats it as an opaque library call.
-/

/-- Substring containment: `strContains s sub` holds when `sub` occurs
contiguously inside `s`.  Models Go's `strings.Contains` / assertions of the
form `ErrorContains`. -/
def strContains (s sub : String) : Prop :=
  ∃ pre post : String, s = pre ++ sub ++ post

theorem strContains_refl (s : String) : strContains s s :=
  ⟨"", "", by simp⟩

theorem strContains_append_left (a : String) {s sub : String}
    (h : strContains s sub) : strContains (a ++ s) sub := by
  obtain ⟨pre, post, rfl⟩ := h
  exact ⟨a ++ pre, post, by simp [String.append_assoc]⟩

theorem strContains_append_right {s sub : String} (a : String)
    (h : strContains s sub) : strContains (s ++ a) sub := by
  obtain ⟨pre, post, rfl⟩ := h
  exact ⟨pre, post ++ a, by simp [String.append_assoc]⟩

/-! ## The shared-data store (`tpl_stencil.go`)

The Go code keeps the hook store in `Stencil.sharedData`, a
`map[string][]interface{}` keyed by `path.Join(module, name)`.  We model the
map as an association list (first binding wins) and `path.Join` of two clean,
non-empty path fragments as slash concatenation. -/

/-- Shared-data store: association list from `"<module>/<name>"` keys to the
list of hook values stored under that key. -/
abbrev SharedData (V : Type) : Type := List (String × List V)

/-- Key construction for the shared-data store, `path.Join(module, name)` in
`tpl_stencil.go` (`sharedData.key` in the later revision). -/
def sdKey (module name : String) : String := module ++ "/" ++ name

/-- Lookup of a key in the shared-data store (Go map indexing
`s.s.sharedData[k]`); `none` corresponds to the key being absent. -/
def lookupHook {V : Type} : SharedData V → String → Option (List V)
  | [], _ => none
  | (k', vs) :: rest, k => if k' = k then some vs else lookupHook rest k

/-- Replace the value stored under the first binding of `k` (Go map
assignment `sharedData[k] = v` when the key is already present). -/
def updateHook {V : Type} : SharedData V → String → List V → SharedData V
  | [], _, _ => []
  | (k', vs') :: rest, k, vs =>
    if k' = k then (k, vs) :: rest else (k', vs') :: updateHook rest k vs

/-- Argument passed to `AddToModuleHook` as seen through Go reflection:
either an unset value, a non-slice value (with the reflected kind name used
in the error message), or a slice of hook values. -/
inductive HookArg (V : Type) : Type
  | unset : HookArg V
  | nonSlice (kind : String) : HookArg V
  | slice (elems : List V) : HookArg V

/-- `TplStencil.AddToModuleHook` (`tpl_stencil.go`).  Returns the updated
store and the error (Go returns the error twice, as `out` and `err`; we keep
a single `Option String`).  On the second pass (`isFirstPass = false`) the
function returns immediately with no store change and no error.  Otherwise
it validates that the data is a slice and appends to (or creates) the
binding at `path.Join(module, name)`. -/
def addToModuleHook {V : Type} (isFirstPass : Bool) (sd : SharedData V)
    (module name : String) (data : HookArg V) : SharedData V × Option String :=
  if !isFirstPass then
    (sd, none)
  else
    match data with
    | .unset => (sd, some "third parameter, data, must be set")
    | .nonSlice kind =>
        (sd, some ("unsupported module block data type \"" ++ kind ++
          "\", supported type is slice"))
    | .slice elems =>
        let k := sdKey module name
        match lookupHook sd k with
        | some old => (updateHook sd k (old ++ elems), none)
        | none => (sd ++ [(k, elems)], none)

/-- `TplStencil.GetModuleHook` (`tpl_stencil.go`): reads the binding at
`path.Join(s.t.Module.Name, name)`; a missing key yields the empty list
(a `nil` slice in Go). -/
def getModuleHook {V : Type} (sd : SharedData V) (moduleName name : String) :
    List V :=
  (lookupHook sd (sdKey moduleName name)).getD []

/-- `moduleHook.Sort` (`tpl_stencil.go` companion file): sorts the hook
values by their structural hash.  Go's `sort.Slice` runs insertion sort on
short slices and only swaps on strict comparison, so ties keep their
insertion order; `List.insertionSort` with the non-strict hash comparison is
exactly that stable sort. -/
def sortHookValues {V : Type} (hash : V → Nat) (values : List V) : List V :=
  List.insertionSort (fun a b => hash a ≤ hash b) values

/-- `Stencil.sortModuleHooks`: sorts every hook list in the store between
the two passes. -/
def sortModuleHooks {V : Type} (hash : V → Nat) (sd : SharedData V) :
    SharedData V :=
  sd.map (fun kv => (kv.1, sortHookValues hash kv.2))

/-! Basic store lemmas. -/

theorem lookupHook_updateHook_ne {V : Type} (sd : SharedData V)
    (k k' : String) (vs : List V) (h : k' ≠ k) :
    lookupHook (updateHook sd k vs) k' = lookupHook sd k' := by
  induction sd with
  | nil => rfl
  | cons kv rest ih =>
      obtain ⟨k₀, vs₀⟩ := kv
      by_cases hk : k₀ = k
      · subst hk
        have hne : ¬(k₀ = k') := fun hc => h hc.symm
        simp [updateHook, lookupHook, hne]
      · simp [updateHook, lookupHook, hk]
        by_cases hk' : k₀ = k'
        · simp [hk']
        · simp [hk', ih]

theorem lookupHook_append_single_ne {V : Type} (sd : SharedData V)
    (k k' : String) (vs : List V) (h : k' ≠ k) :
    lookupHook (sd ++ [(k, vs)]) k' = lookupHook sd k' := by
  induction sd with
  | nil => simpa [lookupHook] using fun hc : k = k' => h hc.symm
  | cons kv rest ih =>
      obtain ⟨k₀, vs₀⟩ := kv
      by_cases hk : k₀ = k'
      · simp [lookupHook, hk]
      · simp [lookupHook, hk, ih]

/-- Writing to a different key leaves a lookup unchanged. -/
theorem lookupHook_addToModuleHook_ne {V : Type} (fp : Bool)
    (sd : SharedData V) (m n : String) (d : HookArg V) (k' : String)
    (h : k' ≠ sdKey m n) :
    lookupHook (addToModuleHook fp sd m n d).1 k' = lookupHook sd k' := by
  cases fp with
  | false => rfl
  | true =>
      cases d with
      | unset => rfl
      | nonSlice kind => rfl
      | slice elems =>
          simp only [addToModuleHook]
          cases hl : lookupHook sd (sdKey m n) with
          | none => simpa using lookupHook_append_single_ne sd _ k' elems h
          | some old => simpa using lookupHook_updateHook_ne sd _ k' (old ++ elems) h

/-! ## Rendered files and templates (`Stencil.Render` in `part_000`)

A `Template` belongs to a module and accumulates rendered output files in
its `Files` slice.  Executing a template (`Template.Render`) performs the
template's hook writes through `AddToModuleHook` — which is where the
`isFirstPass` flag takes effect — and emits files that may depend on the
shared data it observed; we model the emission as a function of the store.
Fields of the Go `File` type that the modelled operations never read
(`Mode`, `Contents`, `Warnings`) are omitted. -/

/-- A rendered output file: output path plus the `Skipped`/`Deleted`
terminal-state flags consulted by `GenerateLockfile`. -/
structure File : Type where
  Name : String
  Skipped : Bool
  Deleted : Bool
deriving DecidableEq, Repr

/-- A template: path inside its module, owning module name, its behaviour
when executed (hook writes and file emission), and the `Files` list that a
render invocation fills in. -/
structure Template (V : Type) : Type where
  path : String
  moduleName : String
  /-- Hook writes the template performs, as `(module, name, data)` triples
  passed to `stencil.AddToModuleHook`. -/
  writes : List (String × String × HookArg V)
  /-- Files the template emits, as a function of the shared data it can
  observe through `stencil.GetModuleHook`. -/
  emit : SharedData V → List File
  Files : List File

/-- One `t.Render(s, vals)` call: perform the template's hook writes through
`AddToModuleHook` (whose behaviour depends on the pass flag) and compute the
emitted files. -/
def runTemplate {V : Type} (isFirstPass : Bool) (sd : SharedData V)
    (t : Template V) : SharedData V × List File :=
  let sd' := t.writes.foldl
    (fun acc w => (addToModuleHook isFirstPass acc w.1 w.2.1 w.2.2).1) sd
  (sd', t.emit sd')

/-- First-pass loop of `Stencil.Render`: render each template, then discard
its files (`t.Files = nil`) — the pass exists only to populate shared
data. -/
def passOne {V : Type} (sd : SharedData V) :
    List (Template V) → SharedData V × List (Template V)
  | [] => (sd, [])
  | t :: ts =>
    let (sd', files) := runTemplate true sd t
    let t' : Template V := { t with Files := t.Files ++ files }
    let t'' : Template V := { t' with Files := [] }
    let (sdF, rest) := passOne sd' ts
    (sdF, t'' :: rest)

/-- Second-pass loop of `Stencil.Render`: render each template again and
keep the emitted files. -/
def passTwo {V : Type} (sd : SharedData V) :
    List (Template V) → SharedData V × List (Template V)
  | [] => (sd, [])
  | t :: ts =>
    let (sd', files) := runTemplate false sd t
    let t' : Template V := { t with Files := t.Files ++ files }
    let (sdF, rest) := passTwo sd' ts
    (sdF, t' :: rest)

/-- Shared-data store after pass 1 and the between-pass hook sort. -/
def postPassOneState {V : Type} (hash : V → Nat) (tpls : List (Template V)) :
    SharedData V :=
  sortModuleHooks hash (passOne [] tpls).1

/-- `Stencil.Render` (`part_000`, lines 192–246): pass 1 populating shared
data with all file output discarded, the between-pass hook sort, then pass 2
whose rendered templates are returned.  (Template discovery, parsing and
directory-replacement rendering happen around this core loop.) -/
def render {V : Type} (hash : V → Nat) (tpls : List (Template V)) :
    List (Template V) :=
  let (sd1, tpls1) := passOne [] tpls
  let sd2 := sortModuleHooks hash sd1
  (passTwo sd2 tpls1).2

/-! Structural lemmas about the two passes. -/

theorem passOne_templates {V : Type} (sd : SharedData V)
    (tpls : List (Template V)) :
    (passOne sd tpls).2 = tpls.map (fun t => { t with Files := [] }) := by
  induction tpls generalizing sd with
  | nil => rfl
  | cons t ts ih => simp [passOne, ih]

/-- Pass-2 hook writes are no-ops: running a template on the second pass
returns the store unchanged. -/
theorem runTemplate_secondPass {V : Type} (sd : SharedData V)
    (t : Template V) : runTemplate false sd t = (sd, t.emit sd) := by
  unfold runTemplate
  have h : t.writes.foldl
      (fun acc w => (addToModuleHook false acc w.1 w.2.1 w.2.2).1) sd = sd := by
    induction t.writes with
    | nil => rfl
    | cons w ws ih => simp [addToModuleHook, ih]
  simp [h]

theorem passTwo_state {V : Type} (sd : SharedData V)
    (tpls : List (Template V)) :
    passTwo sd tpls
      = (sd, tpls.map (fun t => { t with Files := t.Files ++ t.emit sd })) := by
  induction tpls with
  | nil => rfl
  | cons t ts ih => simp [passTwo, runTemplate_secondPass, ih]

/-! ## Lockfile generation (`Stencil.GenerateLockfile` in `part_000`,
`pkg/stencil/stencil.go`) -/

/-- A resolved module as consumed by lockfile generation: `Name`, source
`URI` and resolved `Version` (other `modules.Module` fields are not read by
`GenerateLockfile`). -/
structure ResolvedModule : Type where
  Name : String
  URI : String
  Version : String
deriving DecidableEq, Repr

/-- `stencil.LockfileFileEntry`. -/
structure LockfileFileEntry : Type where
  Name : String
  Template : String
  Module : String
deriving DecidableEq, Repr

/-- `stencil.LockfileModuleEntry`. -/
structure LockfileModuleEntry : Type where
  Name : String
  URL : String
  Version : String
deriving DecidableEq, Repr

/-- `stencil.Lockfile`.  `time.Time` is modelled as a natural number of
nanoseconds since the epoch; the Go zero value is `0`. -/
structure Lockfile : Type where
  Version : String
  Generated : Nat
  Modules : List LockfileModuleEntry
  Files : List LockfileFileEntry
deriving DecidableEq, Repr

/-- The unsorted file-entry list accumulated by `GenerateLockfile`'s nested
loops: one entry per non-skipped, non-deleted file of each template. -/
def lockfileFileEntries {V : Type} : List (Template V) → List LockfileFileEntry
  | [] => []
  | t :: ts =>
    ((t.Files.filter (fun f => !f.Skipped && !f.Deleted)).map
      (fun f => LockfileFileEntry.mk f.Name t.path t.moduleName))
      ++ lockfileFileEntries ts

/-- Go's `sort.SliceStable` keyed by the `Name` field, modelled as the
stable `List.insertionSort` with the non-strict name comparison. -/
def sortByName {α : Type} (nameOf : α → String) (l : List α) : List α :=
  List.insertionSort (fun a b => nameOf a ≤ nameOf b) l

/-- `Stencil.GenerateLockfile` (`part_000`, lines 142–180): collect file
entries for all non-skipped, non-deleted files, collect a module entry per
resolved module, and stably sort both lists by name.  `Version` is set from
the generator's version; `Generated` is never assigned. -/
def generateLockfile {V : Type} (version : String)
    (modules : List ResolvedModule) (tpls : List (Template V)) : Lockfile :=
  { Version := version
    Generated := 0
    Files := sortByName (fun e => e.Name) (lockfileFileEntries tpls)
    Modules := sortByName (fun e => e.Name)
      (modules.map (fun m => LockfileModuleEntry.mk m.Name m.URI m.Version)) }

/-! ## String splitting helpers

`strings.Split` is modelled by structural recursion over the character
list so that all definitions evaluate by kernel reduction. -/

/-- Split a character list at every occurrence of the separator, keeping
empty groups (the semantics of Go's `strings.Split` for a one-character
separator). -/
def splitCharList (sep : Char) : List Char → List (List Char)
  | [] => [[]]
  | c :: cs =>
    match splitCharList sep cs with
    | [] => [[]]
    | g :: gs => if c = sep then [] :: g :: gs else (c :: g) :: gs

/-- `strings.Split(s, sep)` for a one-character separator. -/
def splitOnSep (sep : Char) (s : String) : List String :=
  (splitCharList sep s.data).map (fun cs => String.mk cs)

/-- Truncate a string at the first occurrence of the given character
(everything from that character on is dropped). -/
def truncAt (c : Char) (s : String) : String :=
  String.mk (s.data.takeWhile (fun c' => c' ≠ c))

/-! ## Directory replacements (`part_000`, lines 248–284) -/

/-- `os.PathSeparator` on the platforms stencil targets in its tests. -/
def pathSeparator : Char := '/'

/-- `Stencil.renderDirReplacement` (`part_000`, lines 268–284).  Rendering a
replacement template expression is delegated to the template engine, passed
here as `renderExpr`; the function then rejects any rendered output that
contains the OS path separator with the `fmt.Errorf` message from the
source, and otherwise returns the rendered string. -/
def renderDirReplacement (renderExpr : String → Except String String)
    (template : String) : Except String String :=
  match renderExpr template with
  | .error e => .error e
  | .ok nn =>
      if nn.data.contains pathSeparator then
        .error ("directory replacement of " ++ template ++ " to " ++ nn ++
          " contains path separator in output")
      else
        .ok nn

/-- Modelled from the spec: the application of a module's rendered
`DirReplacements` map to a file's output path is not part of the provided
sources (only `calcDirReplacements`/`StoreDirReplacements` and the test
`TestDirReplacementRendering` are).  Per §4.4 of the spec, a replacement
whose source key matches a leading directory prefix of the path (as complete
path components) substitutes that directory's segment with the rendered
replacement, and multiple applicable replacements apply from the shallowest
directory to the deepest.  Concretely: each directory component of the path
is looked up by its source-path prefix and replaced when a rendered
replacement exists for it; the final (file) component is kept. -/
def applyDirReplacements (reps : String → Option String) (p : String) :
    String :=
  let segs := splitOnSep '/' p
  let rec go (srcSoFar : String) : List String → List String
    | [] => []
    | [file] => [file]
    | d :: rest =>
      let src := if srcSoFar = "" then d else srcSoFar ++ "/" ++ d
      let out := (reps src).getD d
      out :: go src rest
  String.intercalate "/" (go "" segs)

/-! ## Schema-validation error paths (`TestBuildErrorPath` in `part_001`) -/

/-- Modelled from the spec: the implementation of `buildErrorPath` is not in
the provided sources; only its test `TestBuildErrorPath` is.  Reconstructed
from §4.2 of the spec and the test's expectations: split the absolute
keyword location on `/`, fail when no `manifest.yaml` component is present,
and otherwise take the components after `manifest.yaml`, truncate each
component at `#` (dropping the empty remainder of the anchor), drop the
final component (the JSON-Schema keyword, e.g. `type` or `pattern`), and
join with `.`. -/
def buildErrorPath (loc : String) : Except String String :=
  let parts := splitOnSep '/' loc
  match parts.dropWhile (fun s => s ≠ "manifest.yaml") with
  | [] => .error ("expected manifest.yaml in absolute keyword location: " ++ loc)
  | _ :: rest =>
      let segs := (rest.map (truncAt '#')).filter (fun s => s ≠ "")
      .ok (String.intercalate "." segs.dropLast)

/-- The error-path algorithm exactly as claim C9 words it: strip everything
up to and including the `manifest.yaml` prefix, drop the trailing `#/...`
anchor wholesale, split the remainder on `/` and join the non-empty
components with `.`.  Kept separate from `buildErrorPath` so the two can be
compared. -/
def buildErrorPathClaimed (loc : String) : Except String String :=
  match (splitOnSep '/' loc).dropWhile (fun s => s ≠ "manifest.yaml") with
  | [] => .error ("expected manifest.yaml in absolute keyword location: " ++ loc)
  | _ :: rest =>
      let rec dropAnchor : List String → List String
        | [] => []
        | s :: more =>
          if s.data.contains '#' then [truncAt '#' s] else s :: dropAnchor more
      .ok (String.intercalate "."
        ((dropAnchor rest).filter (fun s => s ≠ "")))

/-! ## Module resolution (spec §4.1; `module_test.go`)

Modelled from the spec: the module resolver (`modules.GetModulesForService`
and its version selection) is not among the provided sources; only its tests
are.  Following §4.1, per module name the resolver accumulates requirements
with provenance, resolves to a top-level branch pin when one exists, and
otherwise picks the highest available version satisfying every version
range, failing with a `no version found matching criteria` diagnostic that
carries the provenance chain. -/

/-- A released semantic version `major.minor.patch`. -/
structure SemVer : Type where
  major : Nat
  minor : Nat
  patch : Nat
deriving DecidableEq, Repr

/-- Strict lexicographic order on versions. -/
def SemVer.ltb (a b : SemVer) : Bool :=
  decide (a.major < b.major) ||
    (decide (a.major = b.major) &&
      (decide (a.minor < b.minor) ||
        (decide (a.minor = b.minor) && decide (a.patch < b.patch))))

/-- Non-strict lexicographic order on versions. -/
def SemVer.leb (a b : SemVer) : Bool :=
  SemVer.ltb a b || decide (a = b)

/-- A version-range constraint as used in the resolver tests:
`=<X` (at most), `>=X` (at least), `~X` (same major/minor, at least `X`). -/
inductive Constraint : Type
  | atMost (v : SemVer)
  | atLeast (v : SemVer)
  | tilde (v : SemVer)
deriving DecidableEq, Repr

/-- Whether a version satisfies a constraint. -/
def satisfies (v : SemVer) : Constraint → Bool
  | .atMost w => SemVer.leb v w
  | .atLeast w => SemVer.leb w v
  | .tilde w =>
      SemVer.leb w v && decide (v.major = w.major) && decide (v.minor = w.minor)

/-- A requirement's version specifier: a branch pin (a non-semver
identifier such as `main`) or a version range. -/
inductive VSpec : Type
  | branch (name : String)
  | range (c : Constraint)
deriving DecidableEq, Repr

/-- One accumulated requirement on a module: the provenance (e.g.
`"testing-service (top-level)"` or `"nested_constraint@v0.0.0-+"`), whether
it comes from the top-level service manifest, the surface text of the
constraint as recorded for diagnostics, and the parsed specifier. -/
structure Requirement : Type where
  source : String
  topLevel : Bool
  wants : String
  spec : VSpec

/-- Result of resolving one module: either a pinned branch or a concrete
version. -/
inductive Resolved : Type
  | branch (name : String)
  | version (v : SemVer)
deriving DecidableEq, Repr

/-- First top-level branch pin among the requirements, if any. -/
def topBranch (reqs : List Requirement) : Option String :=
  reqs.findSome? (fun r =>
    match r.spec, r.topLevel with
    | .branch b, true => some b
    | _, _ => none)

/-- The provenance chain rendered into the failure diagnostic, one
`└─ <source> wants <constraint>` line per requirement, indented two spaces
more at each level. -/
def chainMsg : List Requirement → Nat → String
  | [], _ => ""
  | r :: rs, depth =>
      "\n" ++ String.mk (List.replicate (2 * depth) ' ') ++ "└─ " ++
        r.source ++ " wants " ++ r.wants ++ chainMsg rs (depth + 1)

/-- The diagnostic produced when no version satisfies the intersected
ranges (shape taken from `TestFailOnIncompatibleConstraints`). -/
def noVersionMsg (name : String) (reqs : List Requirement) : String :=
  "failed to resolve module '" ++ name ++ "' with constraints" ++
    chainMsg reqs 0 ++ "\n: no version found matching criteria"

/-- The version ranges among the requirements. -/
def rangesOf (reqs : List Requirement) : List Constraint :=
  reqs.filterMap (fun r =>
    match r.spec with
    | .range c => some c
    | .branch _ => none)

/-- Highest version in a list (by lexicographic order). -/
def maxVer : List SemVer → Option SemVer
  | [] => none
  | v :: vs =>
      match maxVer vs with
      | none => some v
      | some w => if SemVer.ltb w v then some v else some w

/-- All constraints hold of `v`. -/
def satisfiesAll (v : SemVer) (cs : List Constraint) : Bool :=
  cs.all (fun c => satisfies v c)

/-- Resolve one module name: a top-level branch pin wins outright;
otherwise the highest available version satisfying every accumulated range
is selected, and an empty intersection is a failure carrying the full
provenance chain. -/
def resolveVersion (name : String) (avail : List SemVer)
    (reqs : List Requirement) : Except String Resolved :=
  match topBranch reqs with
  | some b => .ok (.branch b)
  | none =>
      match maxVer (avail.filter (fun v => satisfiesAll v (rangesOf reqs))) with
      | some v => .ok (.version v)
      | none => .error (noVersionMsg name reqs)

/-! Resolver helper lemmas. -/

theorem SemVer.leb_total (a b : SemVer) :
    SemVer.leb a b = true ∨ SemVer.leb b a = true := by
  obtain ⟨x₁, y₁, z₁⟩ := a
  obtain ⟨x₂, y₂, z₂⟩ := b
  simp only [SemVer.leb, SemVer.ltb, Bool.or_eq_true, Bool.and_eq_true,
    decide_eq_true_eq, SemVer.mk.injEq]
  omega

theorem SemVer.leb_trans {a b c : SemVer} (h₁ : SemVer.leb a b = true)
    (h₂ : SemVer.leb b c = true) : SemVer.leb a c = true := by
  obtain ⟨x₁, y₁, z₁⟩ := a
  obtain ⟨x₂, y₂, z₂⟩ := b
  obtain ⟨x₃, y₃, z₃⟩ := c
  simp only [SemVer.leb, SemVer.ltb, Bool.or_eq_true, Bool.and_eq_true,
    decide_eq_true_eq, SemVer.mk.injEq] at h₁ h₂ ⊢
  omega

theorem SemVer.ltb_false_leb {a b : SemVer} (h : SemVer.ltb a b = false) :
    SemVer.leb b a = true := by
  obtain ⟨x₁, y₁, z₁⟩ := a
  obtain ⟨x₂, y₂, z₂⟩ := b
  simp only [SemVer.leb, SemVer.ltb, Bool.or_eq_false_iff, Bool.or_eq_true,
    Bool.and_eq_false_iff, Bool.and_eq_true, decide_eq_false_iff_not,
    decide_eq_true_eq, SemVer.mk.injEq] at h ⊢
  omega

theorem SemVer.ltb_leb {a b : SemVer} (h : SemVer.ltb a b = true) :
    SemVer.leb a b = true := by
  simp [SemVer.leb, h]

theorem SemVer.leb_refl (a : SemVer) : SemVer.leb a a = true := by
  simp [SemVer.leb]

/-- The maximum is an element of the list. -/
theorem maxVer_mem {l : List SemVer} {v : SemVer} (h : maxVer l = some v) :
    v ∈ l := by
  induction l with
  | nil => simp [maxVer] at h
  | cons w ws ih =>
      simp only [maxVer] at h
      cases hm : maxVer ws with
      | none => rw [hm] at h; simp at h; simp [h]
      | some m =>
          rw [hm] at h
          by_cases hlt : SemVer.ltb m w = true
          · simp [hlt] at h; simp [h]
          · simp [hlt] at h
            exact List.mem_cons_of_mem _ (ih (by rw [hm, h]))

/-- An empty maximum means an empty list. -/
theorem maxVer_eq_none {l : List SemVer} (h : maxVer l = none) : l = [] := by
  cases l with
  | nil => rfl
  | cons x xs =>
      cases hm : maxVer xs with
      | none => simp [maxVer, hm] at h
      | some m =>
          simp only [maxVer, hm] at h
          by_cases hlt : SemVer.ltb m x = true <;> simp [hlt] at h

/-- The maximum dominates every element of the list. -/
theorem maxVer_ge {l : List SemVer} {v : SemVer} (h : maxVer l = some v) :
    ∀ w ∈ l, SemVer.leb w v = true := by
  induction l generalizing v with
  | nil => simp
  | cons x xs ih =>
      intro w hw
      cases hm : maxVer xs with
      | none =>
          simp only [maxVer, hm, Option.some.injEq] at h
          subst h
          rcases List.mem_cons.mp hw with rfl | hmem
          · exact SemVer.leb_refl _
          · rw [maxVer_eq_none hm] at hmem; simp at hmem
      | some m =>
          simp only [maxVer, hm] at h
          by_cases hlt : SemVer.ltb m x = true
          · rw [if_pos hlt] at h
            simp only [Option.some.injEq] at h
            subst h
            rcases List.mem_cons.mp hw with rfl | hmem
            · exact SemVer.leb_refl _
            · exact SemVer.leb_trans (ih hm w hmem) (SemVer.ltb_leb hlt)
          · rw [if_neg hlt] at h
            simp only [Option.some.injEq] at h
            subst h
            rcases List.mem_cons.mp hw with rfl | hmem
            · exact SemVer.ltb_false_leb (by simpa using hlt)
            · exact ih hm w hmem

/-- A non-empty list has a maximum. -/
theorem maxVer_isSome {l : List SemVer} (h : l ≠ []) :
    ∃ v, maxVer l = some v := by
  cases l with
  | nil => exact absurd rfl h
  | cons x xs =>
      simp only [maxVer]
      cases maxVer xs with
      | none => exact ⟨x, rfl⟩
      | some m =>
          by_cases hlt : SemVer.ltb m x = true
          · exact ⟨x, by simp [hlt]⟩
          · exact ⟨m, by simp [hlt]⟩

/-- Every requirement's provenance line occurs in the rendered chain. -/
theorem chainMsg_contains {reqs : List Requirement} {r : Requirement}
    (h : r ∈ reqs) (d : Nat) :
    strContains (chainMsg reqs d) ("└─ " ++ r.source ++ " wants " ++ r.wants) := by
  induction reqs generalizing d with
  | nil => simp at h
  | cons r₀ rs ih =>
      rcases List.mem_cons.mp h with rfl | hmem
      · refine ⟨"\n" ++ String.mk (List.replicate (2 * d) ' '), chainMsg rs (d + 1), ?_⟩
        simp [chainMsg, String.append_assoc]
      · have := ih hmem (d + 1)
        exact strContains_append_left _ this

/-- The failure diagnostic contains the criteria text. -/
theorem noVersionMsg_contains_criteria (name : String)
    (reqs : List Requirement) :
    strContains (noVersionMsg name reqs) "no version found matching criteria" := by
  refine ⟨"failed to resolve module '" ++ name ++ "' with constraints" ++
    chainMsg reqs 0 ++ "\n: ", "", ?_⟩
  simp [noVersionMsg, String.append_assoc]

/-- The failure diagnostic contains every provenance line. -/
theorem noVersionMsg_contains_chain {name : String} {reqs : List Requirement}
    {r : Requirement} (h : r ∈ reqs) :
    strContains (noVersionMsg name reqs)
      ("└─ " ++ r.source ++ " wants " ++ r.wants) := by
  unfold noVersionMsg
  exact strContains_append_right _ (strContains_append_left _ (chainMsg_contains h 0))

/-- If some requirement is a top-level branch pin and every top-level branch
pin names `b`, the first one found names `b`. -/
theorem topBranch_eq {reqs : List Requirement} {b : String}
    (hex : ∃ r ∈ reqs, r.topLevel = true ∧ r.spec = VSpec.branch b)
    (huniq : ∀ r ∈ reqs, r.topLevel = true →
      ∀ b', r.spec = VSpec.branch b' → b' = b) :
    topBranch reqs = some b := by
  induction reqs with
  | nil => obtain ⟨r, hr, _⟩ := hex; simp at hr
  | cons r₀ rs ih =>
      obtain ⟨r, hr, htop, hspec⟩ := hex
      unfold topBranch List.findSome?
      cases hs : r₀.spec with
      | branch b₀ =>
          cases ht : r₀.topLevel with
          | true =>
              have : b₀ = b := huniq r₀ (List.mem_cons_self _ _) ht b₀ hs
              simp [this]
          | false =>
              simp only []
              have : topBranch rs = some b := by
                rcases List.mem_cons.mp hr with rfl | hmem
                · rw [ht] at htop; exact absurd htop (by simp)
                · exact ih ⟨r, hmem, htop, hspec⟩
                    (fun r' hr' => huniq r' (List.mem_cons_of_mem _ hr'))
              simpa [topBranch] using this
      | range c =>
          simp only []
          have : topBranch rs = some b := by
            rcases List.mem_cons.mp hr with rfl | hmem
            · rw [hs] at hspec; exact absurd hspec (by simp)
            · exact ih ⟨r, hmem, htop, hspec⟩
                (fun r' hr' => huniq r' (List.mem_cons_of_mem _ hr'))
          simpa [topBranch] using this

/-! ## Derived facts about the render pipeline -/

/-- The result of `Render`: every returned template carries exactly the
files it emitted during pass 2, evaluated against the post-pass-1, sorted
shared data. -/
theorem render_eq {V : Type} (hash : V → Nat) (tpls : List (Template V)) :
    render hash tpls
      = tpls.map (fun t => { t with Files := t.emit (postPassOneState hash tpls) }) := by
  show (passTwo (sortModuleHooks hash (passOne [] tpls).1) (passOne [] tpls).2).2
    = _
  rw [passTwo_state, passOne_templates]
  simp only [List.map_map, postPassOneState]
  rfl

/-- `sortByName` is a permutation of its input. -/
theorem sortByName_perm {α : Type} (nameOf : α → String) (l : List α) :
    (sortByName nameOf l).Perm l :=
  List.perm_insertionSort _ l

/-- `sortByName` sorts by the name projection. -/
theorem sortByName_sorted {α : Type} (nameOf : α → String) (l : List α) :
    List.Sorted (fun a b => nameOf a ≤ nameOf b) (sortByName nameOf l) := by
  haveI : IsTotal α (fun a b => nameOf a ≤ nameOf b) :=
    ⟨fun a b => le_total (nameOf a) (nameOf b)⟩
  haveI : IsTrans α (fun a b => nameOf a ≤ nameOf b) :=
    ⟨fun _ _ _ h₁ h₂ => le_trans h₁ h₂⟩
  exact List.sorted_insertionSort _ l

/-- Membership in the accumulated lockfile file entries. -/
theorem mem_lockfileFileEntries {V : Type} (tpls : List (Template V))
    (e : LockfileFileEntry) :
    e ∈ lockfileFileEntries tpls
      ↔ ∃ t ∈ tpls, ∃ f ∈ t.Files, f.Skipped = false ∧ f.Deleted = false ∧
          e = LockfileFileEntry.mk f.Name t.path t.moduleName := by
  induction tpls with
  | nil => simp [lockfileFileEntries]
  | cons t ts ih =>
      simp only [lockfileFileEntries, List.mem_append, List.mem_map,
        List.mem_filter, ih, List.mem_cons]
      constructor
      · rintro (⟨f, ⟨hf, hflag⟩, rfl⟩ | ⟨t', ht', hrest⟩)
        · refine ⟨t, Or.inl rfl, f, hf, ?_, ?_, rfl⟩ <;>
            simp only [Bool.and_eq_true, Bool.not_eq_true'] at hflag
          · exact hflag.1
          · exact hflag.2
        · exact ⟨t', Or.inr ht', hrest⟩
      · rintro ⟨t', ht' | ht', f, hf, hsk, hdel, rfl⟩
        · subst ht'
          exact Or.inl ⟨f, ⟨hf, by simp [hsk, hdel]⟩, rfl⟩
        · exact Or.inr ⟨t', ht', f, hf, hsk, hdel, rfl⟩

/-- Hook-value sorting is insensitive to the input order whenever the
elements' structural hashes are pairwise distinct. -/
theorem sortHookValues_perm_eq {V : Type} (hash : V → Nat) {l₁ l₂ : List V}
    (hp : l₁.Perm l₂) (hnd : (l₁.map hash).Nodup) :
    sortHookValues hash l₁ = sortHookValues hash l₂ := by
  haveI : IsTotal V (fun a b => hash a ≤ hash b) :=
    ⟨fun a b => Nat.le_total _ _⟩
  haveI : IsTrans V (fun a b => hash a ≤ hash b) :=
    ⟨fun _ _ _ h₁ h₂ => Nat.le_trans h₁ h₂⟩
  haveI : IsAntisymm V (fun a b => hash a < hash b) :=
    ⟨fun a b h₁ h₂ => absurd (Nat.lt_trans h₁ h₂) (Nat.lt_irrefl _)⟩
  have hs₁ : List.Sorted (fun a b => hash a ≤ hash b) (sortHookValues hash l₁) :=
    List.sorted_insertionSort _ l₁
  have hs₂ : List.Sorted (fun a b => hash a ≤ hash b) (sortHookValues hash l₂) :=
    List.sorted_insertionSort _ l₂
  have hperm : (sortHookValues hash l₁).Perm (sortHookValues hash l₂) :=
    (List.perm_insertionSort _ l₁).trans
      (hp.trans (List.perm_insertionSort _ l₂).symm)
  have hnd₂ : (l₂.map hash).Nodup := ((hp.map hash).nodup_iff).mp hnd
  have hpair₁ : List.Pairwise (fun a b => hash a ≠ hash b)
      (sortHookValues hash l₁) := by
    have : ((sortHookValues hash l₁).map hash).Nodup :=
      (((List.perm_insertionSort _ l₁).map hash).nodup_iff).mpr hnd
    exact List.pairwise_map.mp this
  have hpair₂ : List.Pairwise (fun a b => hash a ≠ hash b)
      (sortHookValues hash l₂) := by
    have : ((sortHookValues hash l₂).map hash).Nodup :=
      (((List.perm_insertionSort _ l₂).map hash).nodup_iff).mpr hnd₂
    exact List.pairwise_map.mp this
  have hlt₁ : List.Sorted (fun a b => hash a < hash b) (sortHookValues hash l₁) :=
    (hs₁.and hpair₁).imp (fun h => Nat.lt_of_le_of_ne h.1 h.2)
  have hlt₂ : List.Sorted (fun a b => hash a < hash b) (sortHookValues hash l₂) :=
    (hs₂.and hpair₂).imp (fun h => Nat.lt_of_le_of_ne h.1 h.2)
  exact List.eq_of_perm_of_sorted hperm hlt₁ hlt₂

/-! ## Claims -/

/-- C1: Pass isolation of the two-pass renderer.  Every file emitted during
pass 1 is discarded (`t.Files = nil` after the first-pass loop), the list of
files returned by `Render` consists exactly of the pass-2 emissions against
the post-pass-1 sorted shared data, pass 2 leaves the shared-data store
unchanged, and an `AddToModuleHook` call made when `isFirstPass` is false
returns the store unchanged with no error. -/
theorem claim1_pass_isolation {V : Type} (hash : V → Nat)
    (tpls : List (Template V)) (sd : SharedData V) (m n : String)
    (d : HookArg V) :
    (passOne [] tpls).2.map (fun t => t.Files)
        = tpls.map (fun _ => ([] : List File))
    ∧ (render hash tpls).map (fun t => t.Files)
        = tpls.map (fun t => t.emit (postPassOneState hash tpls))
    ∧ (passTwo (postPassOneState hash tpls) (passOne [] tpls).2).1
        = postPassOneState hash tpls
    ∧ addToModuleHook false sd m n d = (sd, none) := by
  refine ⟨?_, ?_, ?_, rfl⟩
  · rw [passOne_templates]; simp [Function.comp_def]
  · rw [render_eq]; simp
  · rw [passTwo_state]

/-- C2: The lockfile produced by `GenerateLockfile` contains a file entry
exactly for the output files whose `Skipped` and `Deleted` flags are both
unset, and both the `Files` and the `Modules` lists are sorted in ascending
alphabetical order of their `Name` field. -/
theorem claim2_lockfile_entries_sorted (version : String)
    (mods : List ResolvedModule) {V : Type} (tpls : List (Template V)) :
    (∀ e, e ∈ (generateLockfile version mods tpls).Files
      ↔ ∃ t ∈ tpls, ∃ f ∈ t.Files, f.Skipped = false ∧ f.Deleted = false ∧
          e = LockfileFileEntry.mk f.Name t.path t.moduleName)
    ∧ List.Sorted (fun a b => a.Name ≤ b.Name)
        (generateLockfile version mods tpls).Files
    ∧ List.Sorted (fun a b => a.Name ≤ b.Name)
        (generateLockfile version mods tpls).Modules := by
  refine ⟨fun e => ?_, sortByName_sorted _ _, sortByName_sorted _ _⟩
  rw [show (generateLockfile version mods tpls).Files
      = sortByName (fun e => e.Name) (lockfileFileEntries tpls) from rfl,
    (sortByName_perm (fun e => e.Name) (lockfileFileEntries tpls)).mem_iff]
  exact mem_lockfileFileEntries tpls e

/-- C10: `GenerateLockfile` sets the lockfile's `Version` to the generator
version and never assigns `Generated`, which keeps the zero time value. -/
theorem claim10_lockfile_version_generated (version : String)
    (mods : List ResolvedModule) {V : Type} (tpls : List (Template V)) :
    (generateLockfile version mods tpls).Version = version
    ∧ (generateLockfile version mods tpls).Generated = 0 :=
  ⟨rfl, rfl⟩

/-- C3 counterexample: hook order is NOT independent of write order when the
two values' structural hashes collide.  With a constant hash (every 64-bit
hash function has colliding inputs, and `hashModuleHookValue` additionally
maps every value whose hashing fails to `0`), writing `[a]` then `[b]` and
writing `[b]` then `[a]` are observed differently in pass 2: the comparison
sort leaves equal-keyed elements in insertion order. -/
theorem claim3_counterexample :
    ¬(getModuleHook
        (sortModuleHooks (fun _ => 0)
          (addToModuleHook true
            (addToModuleHook true ([] : SharedData Nat) "m" "n"
              (.slice [0])).1 "m" "n" (.slice [1])).1) "m" "n"
      = getModuleHook
        (sortModuleHooks (fun _ => 0)
          (addToModuleHook true
            (addToModuleHook true ([] : SharedData Nat) "m" "n"
              (.slice [1])).1 "m" "n" (.slice [0])).1) "m" "n") := by
  decide

/-- C3 (amended): hook order determinism holds whenever the structural
hashes distinguish the values.  Writing `[a]` then `[b]` in pass 1 is
observed in pass 2 (after the between-pass sort) exactly as writing `[b]`
then `[a]`, provided `hash a ≠ hash b`; and in general the post-sort order
of a hook list is independent of the insertion order whenever the stored
values have pairwise-distinct hashes. -/
theorem claim3_hook_commutativity {V : Type} (hash : V → Nat)
    (m n : String) (a b : V) (hne : hash a ≠ hash b) :
    (getModuleHook
        (sortModuleHooks hash
          (addToModuleHook true
            (addToModuleHook true ([] : SharedData V) m n
              (.slice [a])).1 m n (.slice [b])).1) m n
      = getModuleHook
        (sortModuleHooks hash
          (addToModuleHook true
            (addToModuleHook true ([] : SharedData V) m n
              (.slice [b])).1 m n (.slice [a])).1) m n)
    ∧ ∀ l₁ l₂ : List V, l₁.Perm l₂ → (l₁.map hash).Nodup →
        sortHookValues hash l₁ = sortHookValues hash l₂ := by
  constructor
  · have hsort : sortHookValues hash [a, b] = sortHookValues hash [b, a] :=
      sortHookValues_perm_eq hash (List.Perm.swap b a [])
        (by simp [hne])
    simp only [addToModuleHook, getModuleHook, sortModuleHooks, lookupHook,
      updateHook, sdKey, Bool.not_true]
    simp [hsort]
  · exact fun l₁ l₂ hp hnd => sortHookValues_perm_eq hash hp hnd

/-- C3 witness: the amended commutativity at concrete inputs — value type
`Nat`, the identity hash, values `0` and `1`. -/
theorem claim3_witness :
    (getModuleHook
        (sortModuleHooks (fun v : Nat => v)
          (addToModuleHook true
            (addToModuleHook true ([] : SharedData Nat) "m" "n"
              (.slice [0])).1 "m" "n" (.slice [1])).1) "m" "n"
      = getModuleHook
        (sortModuleHooks (fun v : Nat => v)
          (addToModuleHook true
            (addToModuleHook true ([] : SharedData Nat) "m" "n"
              (.slice [1])).1 "m" "n" (.slice [0])).1) "m" "n")
    ∧ sortHookValues (fun v : Nat => v) [0, 1]
        = sortHookValues (fun v : Nat => v) [1, 0] :=
  ⟨(claim3_hook_commutativity (fun v : Nat => v) "m" "n" 0 1 (by decide)).1,
    (claim3_hook_commutativity (fun v : Nat => v) "m" "n" 0 1 (by decide)).2
      [0, 1] [1, 0] (by decide) (by decide)⟩

/-- C4: `renderDirReplacement` on an expression whose rendering succeeds
fails exactly when the rendered output contains the OS path separator, in
which case the error message contains `"contains path separator in output"`;
otherwise it returns the rendered string. -/
theorem claim4_dir_replacement_separator
    (renderExpr : String → Except String String) (template nn : String)
    (h : renderExpr template = .ok nn) :
    ((∃ e, renderDirReplacement renderExpr template = .error e)
      ↔ nn.data.contains pathSeparator = true)
    ∧ (nn.data.contains pathSeparator = true →
        renderDirReplacement renderExpr template
          = .error ("directory replacement of " ++ template ++ " to " ++ nn ++
              " contains path separator in output")
        ∧ strContains
            ("directory replacement of " ++ template ++ " to " ++ nn ++
              " contains path separator in output")
            "contains path separator in output")
    ∧ (nn.data.contains pathSeparator = false →
        renderDirReplacement renderExpr template = .ok nn) := by
  have heq : renderDirReplacement renderExpr template
      = if nn.data.contains pathSeparator = true then
          Except.error ("directory replacement of " ++ template ++ " to " ++
            nn ++ " contains path separator in output")
        else Except.ok nn := by
    simp only [renderDirReplacement, h]
  by_cases hc : nn.data.contains pathSeparator = true
  · rw [if_pos hc] at heq
    refine ⟨⟨fun _ => hc, fun _ => ⟨_, heq⟩⟩, fun _ => ⟨heq, ?_⟩,
      fun hf => Bool.noConfusion (hc.symm.trans hf)⟩
    refine ⟨"directory replacement of " ++ template ++ " to " ++ nn ++ " ",
      "", ?_⟩
    have hsp : (" contains path separator in output" : String)
        = " " ++ "contains path separator in output" := rfl
    rw [hsp]
    simp [String.append_assoc]
  · have hcb : nn.data.contains pathSeparator = false := by
      simpa using hc
    rw [if_neg hc] at heq
    refine ⟨⟨fun hex => ?_, fun ht => absurd ht hc⟩,
      fun ht => absurd ht hc, fun _ => heq⟩
    obtain ⟨e, he⟩ := hex
    exact Except.noConfusion (heq.symm.trans he)

/-- C4 witness: the test scenario `TestBadDirReplacement` — the expression
renders to `"b/c"`, which contains the separator, so the call fails with the
expected message; and a separator-free rendering (`"bob"`) is returned
unchanged. -/
theorem claim4_witness :
    (((∃ e, renderDirReplacement (fun s => .ok s) "b/c" = .error e)
        ↔ ("b/c" : String).data.contains pathSeparator = true)
      ∧ (("b/c" : String).data.contains pathSeparator = true →
          renderDirReplacement (fun s => .ok s) "b/c"
            = .error ("directory replacement of " ++ "b/c" ++ " to " ++ "b/c" ++
                " contains path separator in output")
          ∧ strContains
              ("directory replacement of " ++ "b/c" ++ " to " ++ "b/c" ++
                " contains path separator in output")
              "contains path separator in output")
      ∧ (("b/c" : String).data.contains pathSeparator = false →
          renderDirReplacement (fun s => .ok s) "b/c" = .ok "b/c"))
    ∧ renderDirReplacement (fun s => .ok s) "bob" = .ok "bob" :=
  ⟨claim4_dir_replacement_separator (fun s => .ok s) "b/c" "b/c" rfl,
    (claim4_dir_replacement_separator (fun s => .ok s) "bob" "bob" rfl).2.2 rfl⟩

/-- The rendered directory replacements declared by the test module
`testing1` in `TestDirReplacementRendering`: `"testdata"` maps to the
literal `bob`, and `"testdata/replacement"` maps to the rendering of the
expression `stencil.Arg "x"`, which is `"d"` since the service manifest
supplies the argument `x = "d"`. -/
def testingOneReplacements : String → Option String := fun src =>
  if src = "testdata" then some "bob"
  else if src = "testdata/replacement" then some "d"
  else none

/-- C5: Nested directory replacements apply from the shallowest directory to
the deepest: with `testdata ↦ bob` and `testdata/replacement ↦ d`, the
template at `testdata/replacement/m1.tpl` (initial output path
`testdata/replacement/m1` after the `.tpl` strip) is emitted at
`bob/d/m1`. -/
theorem claim5_nested_dir_replacements :
    applyDirReplacements testingOneReplacements "testdata/replacement/m1"
      = "bob/d/m1" := by
  decide

/-- C8: `GetModuleHook` reads only the key formed from the calling
template's owning module name joined with the hook name: its result is
determined by that single binding, a pass-1 hook write under any other key
leaves it unchanged, and when the key is absent it returns the empty list
rather than failing. -/
theorem claim8_get_module_hook {V : Type} (sd sd' : SharedData V)
    (m n m' n' : String) (xs : List V) :
    (lookupHook sd (sdKey m n) = lookupHook sd' (sdKey m n) →
      getModuleHook sd m n = getModuleHook sd' m n)
    ∧ (sdKey m' n' ≠ sdKey m n →
      getModuleHook (addToModuleHook true sd m' n' (.slice xs)).1 m n
        = getModuleHook sd m n)
    ∧ (lookupHook sd (sdKey m n) = none → getModuleHook sd m n = []) := by
  refine ⟨fun h => ?_, fun h => ?_, fun h => ?_⟩
  · unfold getModuleHook
    rw [h]
  · unfold getModuleHook
    rw [lookupHook_addToModuleHook_ne true sd m' n' (.slice xs) (sdKey m n)
      h.symm]
  · unfold getModuleHook
    rw [h]
    rfl

/-- C8 witness: concrete association lists — the read of module `a`'s hook
`h` is unaffected by extra bindings for module `b`, by a pass-1 write to
module `b`'s hook `g`, and an absent key reads as `[]`. -/
theorem claim8_witness :
    (getModuleHook ([("a/h", [1]), ("b/g", [2])] : SharedData Nat) "a" "h"
        = getModuleHook ([("a/h", [1])] : SharedData Nat) "a" "h")
    ∧ (getModuleHook
        (addToModuleHook true ([("a/h", [1])] : SharedData Nat) "b" "g"
          (.slice [5])).1 "a" "h"
        = getModuleHook ([("a/h", [1])] : SharedData Nat) "a" "h")
    ∧ getModuleHook ([("b/g", [2])] : SharedData Nat) "a" "h" = [] :=
  ⟨(claim8_get_module_hook [("a/h", [1]), ("b/g", [2])] [("a/h", [1])]
      "a" "h" "b" "g" [5]).1 (by decide),
    (claim8_get_module_hook [("a/h", [1])] [("a/h", [1])]
      "a" "h" "b" "g" [5]).2.1 (by decide),
    (claim8_get_module_hook [("b/g", [2])] [("b/g", [2])]
      "a" "h" "b" "g" [5]).2.2 (by decide)⟩

/-- Available released versions of `stencil-base` as exercised by
`TestHandleMultipleConstraints` (the highest existing `0.3.x` patch is
`v0.3.2`). -/
def stencilBaseVersions : List SemVer :=
  [⟨0, 3, 0⟩, ⟨0, 3, 1⟩, ⟨0, 3, 2⟩, ⟨0, 4, 0⟩, ⟨0, 5, 0⟩]

/-- The accumulated requirements of `TestHandleMultipleConstraints`: the
top-level manifest wants `=<0.5.0` and the `nested_constraint` module wants
`~0.3.0`. -/
def mergeReqs : List Requirement :=
  [{ source := "testing-service (top-level)", topLevel := true,
     wants := "=<0.5.0", spec := .range (.atMost ⟨0, 5, 0⟩) },
   { source := "nested_constraint@v0.0.0-+", topLevel := false,
     wants := "~0.3.0", spec := .range (.tilde ⟨0, 3, 0⟩) }]

/-- C6: When some available version satisfies every accumulated range, the
resolver picks the highest such version (in particular `=<0.5.0` merged
with `~0.3.0` over the available `stencil-base` versions resolves to
`v0.3.2`); when the intersection is empty it fails with a message that
contains `no version found matching criteria` and every line of the
provenance chain. -/
theorem claim6_constraint_intersection (name : String) (avail : List SemVer)
    (reqs : List Requirement) (hnb : topBranch reqs = none) :
    ((∃ v ∈ avail, satisfiesAll v (rangesOf reqs) = true) →
      ∃ v, resolveVersion name avail reqs = .ok (.version v)
        ∧ v ∈ avail ∧ satisfiesAll v (rangesOf reqs) = true
        ∧ ∀ w ∈ avail, satisfiesAll w (rangesOf reqs) = true →
            SemVer.leb w v = true)
    ∧ ((∀ v ∈ avail, satisfiesAll v (rangesOf reqs) = false) →
      resolveVersion name avail reqs = .error (noVersionMsg name reqs)
        ∧ strContains (noVersionMsg name reqs)
            "no version found matching criteria"
        ∧ ∀ r ∈ reqs, strContains (noVersionMsg name reqs)
            ("└─ " ++ r.source ++ " wants " ++ r.wants))
    ∧ resolveVersion "github.com/rgst-io/stencil-base" stencilBaseVersions
        mergeReqs = .ok (.version ⟨0, 3, 2⟩) := by
  refine ⟨?_, ?_, rfl⟩
  · rintro ⟨v, hv, hs⟩
    have hmem : v ∈ avail.filter (fun v => satisfiesAll v (rangesOf reqs)) :=
      List.mem_filter.mpr ⟨hv, hs⟩
    obtain ⟨mv, hmv⟩ := maxVer_isSome (List.ne_nil_of_mem hmem)
    refine ⟨mv, ?_, (List.mem_filter.mp (maxVer_mem hmv)).1,
      (List.mem_filter.mp (maxVer_mem hmv)).2, ?_⟩
    · simp [resolveVersion, hnb, hmv]
    · exact fun w hw hsw => maxVer_ge hmv w (List.mem_filter.mpr ⟨hw, hsw⟩)
  · intro hall
    have hnil : avail.filter (fun v => satisfiesAll v (rangesOf reqs)) = [] :=
      List.filter_eq_nil_iff.mpr (fun a ha => by rw [hall a ha]; simp)
    refine ⟨?_, noVersionMsg_contains_criteria name reqs,
      fun r hr => noVersionMsg_contains_chain hr⟩
    simp [resolveVersion, hnb, hnil, maxVer]

/-- Requirements with a non-empty intersection, for the C6 witness. -/
def demoOkReqs : List Requirement :=
  [{ source := "testing-service (top-level)", topLevel := true,
     wants := ">=1.0.0", spec := .range (.atLeast ⟨1, 0, 0⟩) }]

/-- Requirements with an empty intersection over `[v0.3.2]`, mirroring
`TestFailOnIncompatibleConstraints`. -/
def demoBadReqs : List Requirement :=
  [{ source := "testing-service (top-level)", topLevel := true,
     wants := ">=0.5.0", spec := .range (.atLeast ⟨0, 5, 0⟩) },
   { source := "nested_constraint@v0.0.0-+", topLevel := false,
     wants := "~0.3.0", spec := .range (.tilde ⟨0, 3, 0⟩) }]

/-- C6 witness: the intersection theorem applied at concrete inputs — a
satisfiable pair of constraints over `[v1.0.0, v2.0.0]` and the
incompatible `>=0.5.0` / `~0.3.0` pair over `[v0.3.2]`. -/
theorem claim6_witness :
    (∃ v, resolveVersion "svc" [⟨1, 0, 0⟩, ⟨2, 0, 0⟩] demoOkReqs
        = .ok (.version v)
      ∧ v ∈ ([⟨1, 0, 0⟩, ⟨2, 0, 0⟩] : List SemVer)
      ∧ satisfiesAll v (rangesOf demoOkReqs) = true
      ∧ ∀ w ∈ ([⟨1, 0, 0⟩, ⟨2, 0, 0⟩] : List SemVer),
          satisfiesAll w (rangesOf demoOkReqs) = true →
            SemVer.leb w v = true)
    ∧ (resolveVersion "github.com/rgst-io/stencil-base" [⟨0, 3, 2⟩]
          demoBadReqs
        = .error (noVersionMsg "github.com/rgst-io/stencil-base" demoBadReqs)
      ∧ strContains (noVersionMsg "github.com/rgst-io/stencil-base" demoBadReqs)
          "no version found matching criteria"
      ∧ ∀ r ∈ demoBadReqs,
          strContains (noVersionMsg "github.com/rgst-io/stencil-base" demoBadReqs)
            ("└─ " ++ r.source ++ " wants " ++ r.wants)) :=
  ⟨(claim6_constraint_intersection "svc" [⟨1, 0, 0⟩, ⟨2, 0, 0⟩] demoOkReqs
      rfl).1 (by decide),
    (claim6_constraint_intersection "github.com/rgst-io/stencil-base"
      [⟨0, 3, 2⟩] demoBadReqs rfl).2.1 (by decide)⟩

/-- C7: Branch dominance — whenever the requirements on a module include a
top-level branch pin `b` (and `b` is the branch every top-level pin names),
the module resolves to that branch, regardless of any version-range
constraint contributed by other modules. -/
theorem claim7_branch_dominance (name : String) (avail : List SemVer)
    (reqs : List Requirement) (b : String)
    (hex : ∃ r ∈ reqs, r.topLevel = true ∧ r.spec = VSpec.branch b)
    (huniq : ∀ r ∈ reqs, r.topLevel = true →
      ∀ b', r.spec = VSpec.branch b' → b' = b) :
    resolveVersion name avail reqs = .ok (.branch b) := by
  simp [resolveVersion, topBranch_eq hex huniq]

/-- The requirements of `TestBranchAlwaysUsedOverDependency`: the service
pins `stencil-base` to the branch `main` while the `test-dep` module
constrains it with `>=v0.0.0`. -/
def branchPinReqs : List Requirement :=
  [{ source := "testing-service (top-level)", topLevel := true,
     wants := "main", spec := .branch "main" },
   { source := "test-dep@v0.0.0-+", topLevel := false,
     wants := ">=v0.0.0", spec := .range (.atLeast ⟨0, 0, 0⟩) }]

/-- C7 witness: the branch pin `main` wins over the transitive range. -/
theorem claim7_witness :
    resolveVersion "github.com/rgst-io/stencil-base" [⟨0, 5, 0⟩]
      branchPinReqs = .ok (.branch "main") :=
  claim7_branch_dominance "github.com/rgst-io/stencil-base" [⟨0, 5, 0⟩]
    branchPinReqs "main" (by decide)
    (by intro r hr; fin_cases hr <;> simp [branchPinReqs])

/-- The `simple schema` location of `TestBuildErrorPath`. -/
def simpleKeywordLocation : String :=
  "file:///home/test/getoutreach/stencil/manifest.yaml/arguments/releaseOptions.allowMajorVersions#/type"

/-- The `complex schema` location of `TestBuildErrorPath`. -/
def complexKeywordLocation : String :=
  "file:///Users/test/getoutreach/stencil-smartstore/testapps/orgschemagrpc/manifest.yaml/arguments/postgreSQL#/items/properties/name/pattern"

/-- The `missing manifest` location of `TestBuildErrorPath`. -/
def missingManifestLocation : String :=
  "file:///Users/test/getoutreach/stencil-smartstore/testapps/orgschemagrpc/arguments/postgreSQL#/items/properties/name/pattern"

/-- C9 counterexample: on the `complex schema` test input, the algorithm as
the claim words it — drop the trailing `#/...` anchor wholesale — yields
`arguments.postgreSQL`, not the `arguments.postgreSQL.items.properties.name`
that `TestBuildErrorPath` expects and that `buildErrorPath` produces: the
anchor components are kept and only the final keyword component is
dropped. -/
theorem claim9_counterexample :
    buildErrorPathClaimed complexKeywordLocation
      ≠ .ok "arguments.postgreSQL.items.properties.name"
    ∧ buildErrorPath complexKeywordLocation
      = .ok "arguments.postgreSQL.items.properties.name" := by
  refine ⟨fun h => ?_, rfl⟩
  have h1 : buildErrorPathClaimed complexKeywordLocation
      = .ok "arguments.postgreSQL" := rfl
  rw [h1] at h
  exact absurd (Except.ok.inj h) (by decide)

/-- C9 (amended): `buildErrorPath` derives the dotted path by taking the
components after the `manifest.yaml` component, truncating each component at
`#`, dropping empty components and the final keyword component, and joining
with `.` — so the two positive test locations map to their expected paths —
and it returns an error for every location without a `manifest.yaml`
component. -/
theorem claim9_error_path (loc : String)
    (habs : (splitOnSep '/' loc).dropWhile (fun s => s ≠ "manifest.yaml")
      = []) :
    buildErrorPath loc
      = .error ("expected manifest.yaml in absolute keyword location: " ++ loc)
    ∧ buildErrorPath simpleKeywordLocation
      = .ok "arguments.releaseOptions.allowMajorVersions"
    ∧ buildErrorPath complexKeywordLocation
      = .ok "arguments.postgreSQL.items.properties.name"
    ∧ ∃ e, buildErrorPath missingManifestLocation = .error e := by
  refine ⟨?_, rfl, rfl, ⟨_, rfl⟩⟩
  simp only [buildErrorPath, habs]

/-- C9 witness: the amended theorem applied at the `missing manifest` test
location. -/
theorem claim9_witness :
    buildErrorPath missingManifestLocation
      = .error ("expected manifest.yaml in absolute keyword location: " ++
          missingManifestLocation)
    ∧ buildErrorPath simpleKeywordLocation
      = .ok "arguments.releaseOptions.allowMajorVersions"
    ∧ buildErrorPath complexKeywordLocation
      = .ok "arguments.postgreSQL.items.properties.name"
    ∧ ∃ e, buildErrorPath missingManifestLocation = .error e :=
  claim9_error_path missingManifestLocation rfl
